import Mathlib

/-!
Verification of the zcash-radio scanner (`src/lib.rs`) against its
natural-language specification.

The Rust code is shallowly embedded: pure functions become Lean functions on
`String`/`List`/`Nat`; external collaborators (URL parser, HTML parser, HTTP
transport, the zcash address decoder of the `zcash_address` crate, the
filesystem backing the tip cache, and the wall clock) are passed in as
explicit parameters, so every repository function is modelled with its exact
control flow while the collaborators stay abstract.  Rust byte-level string
operations on ASCII patterns coincide with the `List Char` operations used
here (an ASCII byte of UTF-8 is always a standalone scalar), which is noted
at each helper.
-/

namespace ZcashRadio

/-- Model of Rust `str::contains` for an ASCII pattern: the pattern's
characters occur contiguously in the haystack. -/
def strHas (s pat : String) : Bool :=
  decide (pat.data <:+: s.data)

/-- Model of Rust `str::starts_with` for an ASCII pattern. -/
def strStarts (s pre : String) : Bool :=
  decide (pre.data <+: s.data)

/-- Model of Rust `str::ends_with` for an ASCII pattern. -/
def strEnds (s suf : String) : Bool :=
  decide (suf.data <:+ s.data)

/-- Model of Rust `str::to_lowercase` (character-wise; coincides with the
Unicode version on ASCII text such as URL hosts). -/
def strLower (s : String) : String :=
  String.mk (s.data.map Char.toLower)

/-- Model of Rust byte slicing `&s[n..]` for an ASCII prefix of length `n`. -/
def strDrop (s : String) (n : Nat) : String :=
  String.mk (s.data.drop n)

/-- Rust `s.split('/').next().unwrap_or("")`: the text before the first
`'/'`. -/
def upToSlash (s : String) : String :=
  String.mk (s.data.takeWhile (fun c => c != '/'))

/-- Character count (equals Rust's byte `len()` on ASCII strings). -/
def strLen (s : String) : Nat :=
  s.data.length

/-- Rust `char::is_ascii_alphanumeric`. -/
def is_ascii_alphanumeric (c : Char) : Bool :=
  (('0' ≤ c) && (c ≤ '9')) || (('a' ≤ c) && (c ≤ 'z')) || (('A' ≤ c) && (c ≤ 'Z'))

/-- Embeds `lib.rs` `is_valid_youtube_id`: byte length 11 and every character ASCII
alphanumeric, `'-'`, or `'_'`.  (For strings made of those characters byte
length equals character count; a string containing any other character fails
the `all` check in both the Rust original and this model.) -/
def is_valid_youtube_id (id : String) : Bool :=
  strLen id == 11 && id.data.all (fun c => is_ascii_alphanumeric c || c == '-' || c == '_')

/-- Abstract result of `url::Url::parse`: the parsed host (if any), the path
(for a URL with a host the `url` crate guarantees it starts with `'/'`), and
the decoded query pairs in order (`Url::query_pairs`). -/
structure ParsedUrl where
  host : Option String
  path : String
  query : List (String × String)

/-- Models `u.path_segments().and_then(|mut s| s.next())`: for a hierarchical path
the first segment is the text between the leading `'/'` and the next `'/'`. -/
def first_path_segment (u : ParsedUrl) : Option String :=
  if strStarts u.path "/" then some (upToSlash (strDrop u.path 1))
  else none

/-- Models `u.query_pairs().find(|(k, _)| k == key).map(|(_, v)| v)`. -/
def query_param (u : ParsedUrl) (key : String) : Option String :=
  (u.query.find? (fun kv => kv.1 == key)).map (fun kv => kv.2)

/-- Embeds `lib.rs` `extract_video_id`, lines 322-367, applied to the parse result
of the href (`Url::parse` itself is the abstract collaborator). -/
def extract_video_id (u : ParsedUrl) : Option String :=
  match u.host with
  | none => none
  | some h0 =>
    let host := strLower h0
    if ¬ (host = "youtu.be" ∨ strEnds host "youtube.com" = true) then none
    else if host = "youtu.be" then
      match first_path_segment u with
      | some seg => if is_valid_youtube_id seg then some seg else none
      | none => none
    else if u.path = "/watch" then
      match query_param u "v" with
      | some v => if is_valid_youtube_id v then some v else none
      | none => none
    else
      match
        (if strStarts u.path "/shorts/" then some (strDrop u.path (strLen "/shorts/"))
         else if strStarts u.path "/embed/" then some (strDrop u.path (strLen "/embed/"))
         else if strStarts u.path "/live/" then some (strDrop u.path (strLen "/live/"))
         else none) with
      | some rest =>
        let id := upToSlash rest
        if is_valid_youtube_id id then some id else none
      | none => none

/-- Embeds `lib.rs` `Post` (fields used by `process_posts`). -/
structure Post where
  post_number : Int
  cooked : String
  username : String

/-- Embeds `lib.rs` `VideoEntry`. -/
structure VideoEntry where
  video_id : String
  source_post_url : String
  username : String
  tip_unified_address : Option String
  tip_has_transparent : Option Bool
deriving DecidableEq

/-- The aggregation `HashMap<String, VideoEntry>`, modelled as an association
list; the claims only concern its size and per-key lookup, for which the
model keeps keys distinct by construction. -/
abbrev VideoMap := List (String × VideoEntry)

def mapLookup (m : VideoMap) (k : String) : Option VideoEntry :=
  (m.find? (fun kv => kv.1 == k)).map (fun kv => kv.2)

/-- Occupancy test of `HashMap::entry`. -/
def mapHasKey (m : VideoMap) (k : String) : Bool :=
  (mapLookup m k).isSome

def mapKeys (m : VideoMap) : List String :=
  m.map (fun kv => kv.1)

/-- The `VideoEntry` inserted on a vacant entry, lines 393-399:
`source_post_url` is `format!("{}/{}", topic_url, p.post_number)`,
`username` is copied from the post, tip fields start unset. -/
def mkEntry (topic_url : String) (p : Post) (vid : String) : VideoEntry :=
  ⟨vid, topic_url ++ "/" ++ toString p.post_number, p.username, none, none⟩

/-- The per-href pipeline of `process_posts` (lines 381-385): the literal
substring fast filter on the raw href, then `Url::parse` (the abstract
collaborator `parse`; `none` models a parse error) feeding
`extract_video_id`. -/
def href_video_id (parse : String → Option ParsedUrl) (href : String) : Option String :=
  if ¬ (strHas href "youtu.be" = true ∨ strHas href "youtube.com" = true) then none
  else
    match parse href with
    | some u => extract_video_id u
    | none => none

/-- Embeds `lib.rs` `process_posts`, lines 369-408.  `anchors` models
`Html::parse_fragment` plus the `a` selector: it returns, in document order,
the `href` attribute values of the anchors of a cooked HTML fragment. -/
def process_posts (anchors : String → List String) (parse : String → Option ParsedUrl)
    (posts : List Post) (topic_url : String) (denylist : List String) : VideoMap :=
  posts.foldl (fun map p =>
    if ¬ strHas p.cooked "youtu" = true then map
    else
      (anchors p.cooked).foldl (fun map href =>
        match href_video_id parse href with
        | some vid =>
          if vid ∈ denylist then map
          else if mapHasKey map vid = true then map
          else map ++ [(vid, mkEntry topic_url p vid)]
        | none => map) map) []

/-- The valid, non-denied ids yielded by one post's anchor hrefs, in
document order. -/
def post_hits (anchors : String → List String) (parse : String → Option ParsedUrl)
    (denylist : List String) (p : Post) : List String :=
  ((anchors p.cooked).filterMap (href_video_id parse)).filter (fun v => decide (v ∉ denylist))

/-- First-seen-wins insertion: exactly the vacant-entry branch of the
`HashMap::entry` match in `process_posts`. -/
def insert_first (topic_url : String) (m : VideoMap) (ev : String × Post) : VideoMap :=
  if mapHasKey m ev.1 = true then m else m ++ [(ev.1, mkEntry topic_url ev.2 ev.1)]

/-- The (id, post) sightings one post contributes, including the post-level
`p.cooked.contains("youtu")` fast filter of line 376. -/
def post_events (anchors : String → List String) (parse : String → Option ParsedUrl)
    (denylist : List String) (p : Post) : List (String × Post) :=
  if ¬ strHas p.cooked "youtu" = true then []
  else (post_hits anchors parse denylist p).map (fun v => (v, p))

/-- All sightings of the whole post sequence, in input order. -/
def events (anchors : String → List String) (parse : String → Option ParsedUrl)
    (denylist : List String) (posts : List Post) : List (String × Post) :=
  posts.flatMap (post_events anchors parse denylist)

/-- Embeds `lib.rs` `TipInfo`. -/
structure TipInfo where
  address : String
  has_transparent : Bool
deriving DecidableEq

/-- Embeds `lib.rs` `CachedTipEntry`. -/
structure CachedTipEntry where
  cached_at : Nat
  tip_unified_address : Option String
  tip_has_transparent : Bool
deriving DecidableEq

def CACHE_DIR : String := "./target/profile_cache"

def CACHE_TTL_SECS : Nat := 24 * 60 * 60

/-- Embeds `lib.rs` `cache_path`, lines 97-107: ASCII-alphanumeric characters are
kept, every other character becomes `'_'`; the file lives under `CACHE_DIR`
with a `.json` suffix. -/
def cache_path (username : String) : String :=
  CACHE_DIR ++ "/"
    ++ String.mk (username.data.map (fun ch => if is_ascii_alphanumeric ch then ch else '_'))
    ++ ".json"

/-- The cache directory contents: what `tokio_fs::read` plus `serde_json`
parsing yields at each path (`none` models a missing or unparsable file,
both treated as a miss by `load_cached_tip`). -/
abbrev CacheState := String → Option CachedTipEntry

/-- Embeds `lib.rs` `cache_entry_fresh`, lines 116-118, with `now_timestamp()`
passed in as `now` (`u64::saturating_sub` is `Nat` subtraction). -/
def cache_entry_fresh (now : Nat) (entry : CachedTipEntry) : Bool :=
  decide (now - entry.cached_at ≤ CACHE_TTL_SECS)

/-- Embeds `lib.rs` `load_cached_tip`, lines 120-129. -/
def load_cached_tip (fs : CacheState) (now : Nat) (username : String) :
    Option CachedTipEntry :=
  match fs (cache_path username) with
  | none => none
  | some entry => if cache_entry_fresh now entry then some entry else none

/-- One run of `fetch_tip_info_with_cache`: the returned tip, the cache
entry written by `store_cached_tip` (`none` = no write, cache file
unchanged), and whether the remote-resolution path ran. -/
structure FetchOutcome where
  result : Option TipInfo
  written : Option CachedTipEntry
  network : Bool

/-- Embeds `lib.rs` `fetch_tip_info_with_cache`, lines 197-232; `remote` is the
outcome of `fetch_tip_info_remote` (`Except Unit` models `anyhow::Result`
with the error payload dropped). -/
def fetch_tip_info_with_cache (fs : CacheState) (now : Nat)
    (remote : Except Unit (Option TipInfo)) (username : String) : FetchOutcome :=
  if username = "" then ⟨none, none, false⟩
  else
    match load_cached_tip fs now username with
    | some entry =>
      ⟨entry.tip_unified_address.map (fun addr => ⟨addr, entry.tip_has_transparent⟩),
        none, false⟩
    | none =>
      match remote with
      | .ok (some tip) =>
        ⟨some tip, some ⟨now, some tip.address, tip.has_transparent⟩, true⟩
      | .ok none => ⟨none, some ⟨now, none, false⟩, true⟩
      | .error _ => ⟨none, none, true⟩

/-- The tip the `match` of lines 208-231 hands back: an `Err` is logged and
downgraded to no-tip for the run. -/
def remote_result (remote : Except Unit (Option TipInfo)) : Option TipInfo :=
  match remote with
  | .ok r => r
  | .error _ => none

def RETRY_ATTEMPTS : Nat := 3

def RETRY_BASE_DELAY_MS : Nat := 500

/-- Embeds `lib.rs` `should_retry_status`: a server error (`is_server_error`,
500..=599) or 429 (`TOO_MANY_REQUESTS`). -/
def should_retry_status (status : Nat) : Bool :=
  (500 ≤ status && status ≤ 599) || status == 429

/-- Embeds `lib.rs` `retry_delay`: 500ms times `1 << attempt.min(5)`. -/
def retry_delay (attempt : Nat) : Nat :=
  RETRY_BASE_DELAY_MS * 2 ^ (min attempt 5)

/-- One attempt as seen by the loop: `Ok` with its status code, or a
request error. -/
abbrev AttemptOutcome := Except Unit Nat

/-- Trace of `get_with_retries`: the returned value, the index of the last
attempt made (so `last + 1` requests happened), and the sleeps performed
between attempts. -/
structure RetryTrace where
  result : Except Unit Nat
  last : Nat
  delays : List Nat

/-- The loop of `get_with_retries`, lines 281-304, with the transport
abstracted as the per-attempt outcome function `responses`. -/
def retry_loop (responses : Nat → AttemptOutcome) (attempt : Nat) : RetryTrace :=
  match responses attempt with
  | .ok status =>
    if h : should_retry_status status = true ∧ attempt + 1 < RETRY_ATTEMPTS then
      ⟨(retry_loop responses (attempt + 1)).result, (retry_loop responses (attempt + 1)).last,
        retry_delay attempt :: (retry_loop responses (attempt + 1)).delays⟩
    else ⟨.ok status, attempt, []⟩
  | .error _ =>
    if h : RETRY_ATTEMPTS ≤ attempt + 1 then ⟨.error (), attempt, []⟩
    else
      ⟨(retry_loop responses (attempt + 1)).result, (retry_loop responses (attempt + 1)).last,
        retry_delay attempt :: (retry_loop responses (attempt + 1)).delays⟩
termination_by RETRY_ATTEMPTS - attempt
decreasing_by all_goals omega

def get_with_retries (responses : Nat → AttemptOutcome) : RetryTrace :=
  retry_loop responses 0

/-- Whether the loop moves on to another attempt after this outcome: a
request error, or a retryable status. -/
def attempt_retryable (o : AttemptOutcome) : Bool :=
  match o with
  | .ok status => should_retry_status status
  | .error _ => true

/-- What the loop returns when this outcome is final. -/
def attempt_result (o : AttemptOutcome) : Except Unit Nat :=
  match o with
  | .ok status => .ok status
  | .error _ => .error ()

/-- Receiver kinds inside a decoded unified address
(`zcash_address::unified::Receiver`; payloads are irrelevant to the code's
checks). -/
inductive Receiver where
  | p2pkh
  | p2sh
  | sapling
  | orchard
  | unknown
deriving DecidableEq

/-- Embeds `zcash_protocol::consensus::NetworkType`. -/
inductive Network where
  | main
  | test
  | regtest
deriving DecidableEq

/-- Embeds `matches!(receiver, Receiver::P2pkh(_) | Receiver::P2sh(_))`. -/
def receiver_transparent (r : Receiver) : Bool :=
  match r with
  | .p2pkh => true
  | .p2sh => true
  | _ => false

/-- The external `unified::Address::decode` collaborator: the network and
the receiver items of the container, or a decode error. -/
abbrev UADecoder := String → Except String (Network × List Receiver)

/-- Embeds `lib.rs` `validate_unified_address`, lines 155-186 (diagnostics
dropped; the Rust binds `has_transparent` once - it is written out twice
here with the same value). -/
def validate_unified_address (decode : UADecoder) (candidate : String) : Option TipInfo :=
  match decode candidate with
  | .ok (network, items) =>
    if ¬ network = Network.main then none
    else if items.any receiver_transparent then none
    else some ⟨candidate, items.any receiver_transparent⟩
  | .error _ => none

/-- A match of the UA regex `(?i)u1[0-9a-z]{10,}` anchored at the start of
`l`: `u` or `U`, then `1`, then a maximal (greedy; nothing follows in the
pattern) run of at least 10 body characters.  ASCII-faithful to the `regex`
crate. -/
def ua_match_here (l : List Char) : Option (List Char) :=
  match l with
  | c1 :: c2 :: rest =>
    if (c1 == 'u' || c1 == 'U') && c2 == '1' then
      if 10 ≤ (rest.takeWhile is_ascii_alphanumeric).length then
        some (c1 :: c2 :: rest.takeWhile is_ascii_alphanumeric)
      else none
    else none
  | _ => none

/-- Leftmost match: the regex engine tries each start position in order. -/
def ua_find : List Char → Option (List Char)
  | [] => none
  | c :: rest =>
    match ua_match_here (c :: rest) with
    | some m => some m
    | none => ua_find rest

/-- Embeds `lib.rs` `extract_unified_address`, lines 151-153: first regex match,
lower-cased. -/
def extract_unified_address (s : String) : Option String :=
  (ua_find s.data).map (fun l => String.mk (l.map Char.toLower))

/-- Embeds `serde_json::Value` with the non-string leaves collapsed (only strings
can contain an address; object fields appear in the map's iteration
order). -/
inductive JVal where
  | str : String → JVal
  | arr : List JVal → JVal
  | obj : List (String × JVal) → JVal
  | leaf : JVal

mutual

/-- Embeds `lib.rs` `find_address_in_json`, lines 188-195: depth-first `find_map`
over string leaves, array elements, and object values. -/
def find_address_in_json : JVal → Option String
  | .str s => extract_unified_address s
  | .arr vs => find_address_in_list vs
  | .obj kvs => find_address_in_obj kvs
  | .leaf => none

def find_address_in_list : List JVal → Option String
  | [] => none
  | v :: rest =>
    match find_address_in_json v with
    | some s => some s
    | none => find_address_in_list rest

def find_address_in_obj : List (String × JVal) → Option String
  | [] => none
  | kv :: rest =>
    match find_address_in_json kv.2 with
    | some s => some s
    | none => find_address_in_obj rest

end

/-- Profile response delivered by `get_with_retries` for the structured
endpoint: the status, and the outcome of `resp.json()`. -/
structure JsonResp where
  status : Nat
  body : Except Unit JVal

/-- Rendered-page response: the status, and the outcome of `resp.text()`. -/
structure HtmlResp where
  status : Nat
  body : Except Unit String

/-- Embeds `reqwest::StatusCode::is_success`: 200..=299. -/
def is_success_status (status : Nat) : Bool :=
  200 ≤ status && status ≤ 299

def NOT_FOUND : Nat := 404

/-- Embeds `lib.rs` `fetch_tip_from_json`, lines 241-259; `resp` is the outcome of
`get_with_retries` on the profile JSON URL (`.error` models both a transport
failure surviving retries, propagated by `?`, and the `bail!` on a non-404
failure status). -/
def fetch_tip_from_json (decode : UADecoder) (resp : Except Unit JsonResp) :
    Except Unit (Option TipInfo) :=
  match resp with
  | .error _ => .error ()
  | .ok r =>
    if r.status = NOT_FOUND then .ok none
    else if ¬ is_success_status r.status = true then .error ()
    else
      match r.body with
      | .error _ => .error ()
      | .ok value =>
        match find_address_in_json value with
        | some candidate =>
          match validate_unified_address decode candidate with
          | some tip => .ok (some tip)
          | none => .ok none
        | none => .ok none

/-- Embeds `lib.rs` `fetch_tip_from_html`, lines 261-279. -/
def fetch_tip_from_html (decode : UADecoder) (resp : Except Unit HtmlResp) :
    Except Unit (Option TipInfo) :=
  match resp with
  | .error _ => .error ()
  | .ok r =>
    if r.status = NOT_FOUND then .ok none
    else if ¬ is_success_status r.status = true then .error ()
    else
      match r.body with
      | .error _ => .error ()
      | .ok body =>
        match extract_unified_address body with
        | some candidate =>
          match validate_unified_address decode candidate with
          | some tip => .ok (some tip)
          | none => .ok none
        | none => .ok none

/-- Result of `fetch_tip_info_remote` plus whether the rendered-page
fallback request happened. -/
structure RemoteTrace where
  result : Except Unit (Option TipInfo)
  html_fetched : Bool

/-- Embeds `lib.rs` `fetch_tip_info_remote`, lines 234-239: the structured path
runs first; its `Err` propagates through `?` without the fallback; a
`Some` returns at once; only `Ok(None)` reaches the HTML fallback. -/
def fetch_tip_info_remote (decode : UADecoder) (jresp : Except Unit JsonResp)
    (hresp : Except Unit HtmlResp) : RemoteTrace :=
  match fetch_tip_from_json decode jresp with
  | .ok (some tip) => ⟨.ok (some tip), false⟩
  | .ok none => ⟨fetch_tip_from_html decode hresp, true⟩
  | .error e => ⟨.error e, false⟩

/-- The merge loop of `run`, lines 454-460: an entry whose trimmed username
resolved to a tip gets both tip fields set; every other entry is left
untouched. -/
def merge_tips (m : VideoMap) (tip_map : String → Option TipInfo) : VideoMap :=
  m.map (fun kv =>
    match tip_map kv.2.username.trim with
    | some tip =>
      (kv.1, { kv.2 with tip_unified_address := some tip.address,
                         tip_has_transparent := some tip.has_transparent })
    | none => kv)

/-- Concrete cache entry and cache state for the C5 witness. -/
def demoEntry : CachedTipEntry := ⟨500, some "u1demo", false⟩

def demoCache : CacheState :=
  fun p => if p = cache_path "alice" then some demoEntry else none

/-- Concrete attempt outcomes for the C6 witness: an error, then 503, then
200. -/
def demoResponses : Nat → AttemptOutcome :=
  fun i => if i = 0 then .error () else if i = 1 then .ok 503 else .ok 200

/-- Structured profile payload for the C8 counterexample: it contains the
candidate `u1aaaaaaaaaa`. -/
def cexBody : JVal := JVal.obj [("bio", JVal.str "tip me at u1aaaaaaaaaa please")]

/-- Decoder for the C8 counterexample: the candidate fails decoding (as any
string without a valid bech32m checksum does under
`unified::Address::decode`). -/
def cexDecode : UADecoder := fun _ => .error "invalid checksum"

def cexJson : Except Unit JsonResp := .ok ⟨200, .ok cexBody⟩

def cexHtml : Except Unit HtmlResp := .ok ⟨404, .ok ""⟩

/-- Concrete single-anchor HTML collaborator used by witnesses: the cooked
body is itself the one anchor's href. -/
def demoAnchors : String → List String := fun s => [s]

/-- Concrete URL-parse collaborator used by witnesses, giving the `url`
crate's parse of the demo hrefs. -/
def demoParse : String → Option ParsedUrl := fun href =>
  if href = "https://youtu.be/AAAAAAAAAAA" then some ⟨some "youtu.be", "/AAAAAAAAAAA", []⟩
  else if href = "https://www.youtube.com/watch?v=BBBBBBBBBBB" then
    some ⟨some "www.youtube.com", "/watch", [("v", "BBBBBBBBBBB")]⟩
  else if href = "https://youtu.be/BBBBBBBBBBB" then some ⟨some "youtu.be", "/BBBBBBBBBBB", []⟩
  else none

/-- The four posts of the repository's `test_process_posts_dedup_and_denylist`
unit test (cooked bodies reduced to the bare href, matching `demoAnchors`). -/
def demoPosts : List Post :=
  [⟨1, "https://youtu.be/AAAAAAAAAAA", "alice"⟩,
   ⟨2, "https://www.youtube.com/watch?v=BBBBBBBBBBB", "bob"⟩,
   ⟨3, "https://youtu.be/BBBBBBBBBBB", "carol"⟩,
   ⟨4, "https://example.com/video", "dave"⟩]

example : is_valid_youtube_id "aaaaaaaaaaa" = true := by decide
example : is_valid_youtube_id "short" = false := by decide
example : is_valid_youtube_id "invalid$cha" = false := by decide

example :
    extract_video_id ⟨some "youtu.be", "/AAAAAAAAAAA", []⟩ = some "AAAAAAAAAAA" := by decide

example :
    extract_video_id ⟨some "www.youtube.com", "/watch", [("v", "BBBBBBBBBBB")]⟩ =
      some "BBBBBBBBBBB" := by decide

example :
    extract_video_id ⟨some "youtube.com", "/shorts/CCCCCCCCCCC", []⟩ =
      some "CCCCCCCCCCC" := by decide

example :
    extract_video_id ⟨some "www.youtube.com", "/embed/DDDDDDDDDDD/extra", []⟩ =
      some "DDDDDDDDDDD" := by decide

example :
    extract_video_id ⟨some "www.youtube.com", "/live/EEEEEEEEEEE", []⟩ =
      some "EEEEEEEEEEE" := by decide

example : extract_video_id ⟨some "example.com", "/watch", [("v", "AAAAAAAAAAA")]⟩ = none := by
  decide

example : extract_video_id ⟨some "youtu.be", "/SHORT", []⟩ = none := by decide

example : extract_video_id ⟨some "www.youtube.com", "/watch", [("v", "invalidid")]⟩ = none := by
  decide

example : extract_video_id ⟨some "www.youtube.com", "/user/some", []⟩ = none := by decide

/-- Two lists that are both prefixes of a third are comparable; so if neither
of two patterns is a prefix of the other, at most one can be a prefix of a
given string. -/
theorem prefix_excl {s p q : List Char} (hp : p <+: s) (h1 : ¬ p <+: q) (h2 : ¬ q <+: p) :
    ¬ q <+: s :=
  fun hq => ( List.prefix_or_prefix_of_prefix hp hq).elim h1 h2

/-- A string ending in "youtube.com" is not the string "youtu.be". -/
theorem ne_youtube_short_of_ends {x : String} (h : strEnds x "youtube.com" = true) :
    ¬ x = "youtu.be" := by
  intro he
  rw [he] at h
  exact absurd h (by decide)

/-- C1: for a parsed hyperlink with host `youtu.be` the id is taken from the
first path segment; for a host ending in `youtube.com` with path `/watch`
from query parameter `v`, and with path prefix `/shorts/`, `/embed/` or
`/live/` from the segment right after the prefix (sub-path/query ignored);
in each case the id is returned iff it is a valid 11-character token, and a
non-YouTube host (or missing host, or other path) yields none. -/
theorem extract_video_id_correct (u : ParsedUrl) :
    (∀ h seg, u.host = some h → strLower h = "youtu.be" → first_path_segment u = some seg →
      extract_video_id u = if is_valid_youtube_id seg then some seg else none)
  ∧ (∀ h, u.host = some h → strEnds (strLower h) "youtube.com" = true → u.path = "/watch" →
      extract_video_id u =
        match query_param u "v" with
        | some v => if is_valid_youtube_id v then some v else none
        | none => none)
  ∧ (∀ h, u.host = some h → strEnds (strLower h) "youtube.com" = true →
      strStarts u.path "/shorts/" = true →
      extract_video_id u =
        if is_valid_youtube_id (upToSlash (strDrop u.path 8)) then
          some (upToSlash (strDrop u.path 8)) else none)
  ∧ (∀ h, u.host = some h → strEnds (strLower h) "youtube.com" = true →
      strStarts u.path "/embed/" = true →
      extract_video_id u =
        if is_valid_youtube_id (upToSlash (strDrop u.path 7)) then
          some (upToSlash (strDrop u.path 7)) else none)
  ∧ (∀ h, u.host = some h → strEnds (strLower h) "youtube.com" = true →
      strStarts u.path "/live/" = true →
      extract_video_id u =
        if is_valid_youtube_id (upToSlash (strDrop u.path 6)) then
          some (upToSlash (strDrop u.path 6)) else none)
  ∧ (∀ h, u.host = some h → ¬ strLower h = "youtu.be" →
      strEnds (strLower h) "youtube.com" = false → extract_video_id u = none)
  ∧ (u.host = none → extract_video_id u = none)
  ∧ (∀ h, u.host = some h → strEnds (strLower h) "youtube.com" = true → ¬ u.path = "/watch" →
      strStarts u.path "/shorts/" = false → strStarts u.path "/embed/" = false →
      strStarts u.path "/live/" = false → extract_video_id u = none) := by
  refine ⟨?_, ?_, ?_, ?_, ?_, ?_, ?_, ?_⟩
  · intro h seg hhost hlow hseg
    simp [extract_video_id, hhost, hlow, hseg]
  · intro h hhost hends hpath
    have hne := ne_youtube_short_of_ends hends
    simp [extract_video_id, hhost, hne, hends, hpath]
  · intro h hhost hends hpre
    have hne := ne_youtube_short_of_ends hends
    have hw : ¬ u.path = "/watch" := by
      intro he
      rw [he] at hpre
      exact absurd hpre (by decide)
    have h8 : strLen "/shorts/" = 8 := by decide
    simp [extract_video_id, hhost, hne, hends, hw, hpre, h8]
  · intro h hhost hends hpre
    have hne := ne_youtube_short_of_ends hends
    have hw : ¬ u.path = "/watch" := by
      intro he
      rw [he] at hpre
      exact absurd hpre (by decide)
    have hs : strStarts u.path "/shorts/" = false := by
      rw [strStarts, decide_eq_false_iff_not]
      rw [strStarts, decide_eq_true_eq] at hpre
      exact prefix_excl hpre (by decide) (by decide)
    have h7 : strLen "/embed/" = 7 := by decide
    simp [extract_video_id, hhost, hne, hends, hw, hpre, hs, h7]
  · intro h hhost hends hpre
    have hne := ne_youtube_short_of_ends hends
    have hw : ¬ u.path = "/watch" := by
      intro he
      rw [he] at hpre
      exact absurd hpre (by decide)
    have hs : strStarts u.path "/shorts/" = false := by
      rw [strStarts, decide_eq_false_iff_not]
      rw [strStarts, decide_eq_true_eq] at hpre
      exact prefix_excl hpre (by decide) (by decide)
    have he : strStarts u.path "/embed/" = false := by
      rw [strStarts, decide_eq_false_iff_not]
      rw [strStarts, decide_eq_true_eq] at hpre
      exact prefix_excl hpre (by decide) (by decide)
    have h6 : strLen "/live/" = 6 := by decide
    simp [extract_video_id, hhost, hne, hends, hw, hpre, hs, he, h6]
  · intro h hhost hne hends
    simp [extract_video_id, hhost, hne, hends]
  · intro hhost
    simp [extract_video_id, hhost]
  · intro h hhost hends hw h1 h2 h3
    have hne := ne_youtube_short_of_ends hends
    simp [extract_video_id, hhost, hne, hends, hw, h1, h2, h3]

/-- Witness for C1 at a concrete parsed URL with mixed-case host. -/
theorem extract_video_id_correct_witness :
    extract_video_id ⟨some "YouTu.be", "/dQw4w9WgXcQ", []⟩ =
      if is_valid_youtube_id "dQw4w9WgXcQ" then some "dQw4w9WgXcQ" else none :=
  (extract_video_id_correct ⟨some "YouTu.be", "/dQw4w9WgXcQ", []⟩).1 "YouTu.be" "dQw4w9WgXcQ"
    rfl (by decide) (by decide)

theorem mapLookup_append_single (m : VideoMap) (k k' : String) (v : VideoEntry) :
    mapLookup (m ++ [(k', v)]) k
      = (mapLookup m k).or (if (k' == k) = true then some v else none) := by
  unfold mapLookup
  rw [List.find?_append]
  cases hm : m.find? (fun kv => kv.1 == k) <;> cases hk : (k' == k) <;>
    simp [List.find?, hk]

theorem mapHasKey_iff (m : VideoMap) (k : String) :
    mapHasKey m k = true ↔ k ∈ mapKeys m := by
  unfold mapHasKey mapLookup mapKeys
  cases hf : m.find? (fun kv => kv.1 == k) with
  | none =>
    rw [List.find?_eq_none] at hf
    simp only [Option.map_none', Option.isSome_none, Bool.false_eq_true, false_iff,
      List.mem_map]
    rintro ⟨kv, hkv, hk⟩
    exact hf kv hkv (by rw [hk]; exact beq_self_eq_true k)
  | some kv =>
    have hmem := List.mem_of_find?_eq_some hf
    have hbeq := List.find?_some hf
    rw [beq_iff_eq] at hbeq
    simp only [Option.map_some', Option.isSome_some, true_iff, List.mem_map]
    exact ⟨kv, hmem, hbeq⟩

theorem inner_fold_eq (parse : String → Option ParsedUrl) (topic_url : String)
    (denylist : List String) (p : Post) (hrefs : List String) (m : VideoMap) :
    hrefs.foldl (fun map href =>
        match href_video_id parse href with
        | some vid =>
          if vid ∈ denylist then map
          else if mapHasKey map vid = true then map
          else map ++ [(vid, mkEntry topic_url p vid)]
        | none => map) m
    = ((hrefs.filterMap (href_video_id parse)).filter (fun v => decide (v ∉ denylist))).foldl
        (fun map v => insert_first topic_url map (v, p)) m := by
  induction hrefs generalizing m with
  | nil => rfl
  | cons a t ih =>
    cases hh : href_video_id parse a with
    | none =>
      simp only [List.foldl_cons, List.filterMap_cons, hh]
      exact ih m
    | some vid =>
      simp only [List.foldl_cons, List.filterMap_cons, hh]
      by_cases hd : vid ∈ denylist
      · rw [if_pos hd, List.filter_cons_of_neg (by simpa using hd)]
        exact ih m
      · rw [if_neg hd, List.filter_cons_of_pos (by simpa using hd), List.foldl_cons]
        rw [show (if mapHasKey m vid = true then m else m ++ [(vid, mkEntry topic_url p vid)])
            = insert_first topic_url m (vid, p) from rfl]
        exact ih _

theorem outer_fold_eq (anchors : String → List String) (parse : String → Option ParsedUrl)
    (topic_url : String) (denylist : List String) (posts : List Post) (m : VideoMap) :
    posts.foldl (fun map p =>
      if ¬ strHas p.cooked "youtu" = true then map
      else
        (anchors p.cooked).foldl (fun map href =>
          match href_video_id parse href with
          | some vid =>
            if vid ∈ denylist then map
            else if mapHasKey map vid = true then map
            else map ++ [(vid, mkEntry topic_url p vid)]
          | none => map) map) m
    = (events anchors parse denylist posts).foldl (insert_first topic_url) m := by
  induction posts generalizing m with
  | nil => rfl
  | cons p t ih =>
    simp only [List.foldl_cons, events, List.flatMap_cons, List.foldl_append]
    by_cases hc : strHas p.cooked "youtu" = true
    · rw [if_neg (by simp [hc]), inner_fold_eq]
      rw [show post_events anchors parse denylist p
          = (post_hits anchors parse denylist p).map (fun v => (v, p)) by
        simp [post_events, hc]]
      rw [List.foldl_map]
      exact ih _
    · rw [if_pos (by simp [hc])]
      rw [show post_events anchors parse denylist p = [] by simp [post_events, hc]]
      exact ih m

theorem process_posts_eq_events (anchors : String → List String)
    (parse : String → Option ParsedUrl) (posts : List Post) (topic_url : String)
    (denylist : List String) :
    process_posts anchors parse posts topic_url denylist
      = (events anchors parse denylist posts).foldl (insert_first topic_url) [] := by
  unfold process_posts
  exact outer_fold_eq anchors parse topic_url denylist posts []

theorem lookup_foldl_insert (topic_url : String) (evs : List (String × Post)) (m : VideoMap)
    (k : String) :
    mapLookup (evs.foldl (insert_first topic_url) m) k
      = (mapLookup m k).or
          ((evs.find? (fun ev => ev.1 == k)).map (fun ev => mkEntry topic_url ev.2 ev.1)) := by
  induction evs generalizing m with
  | nil => simp
  | cons ev t ih =>
    simp only [List.foldl_cons]
    rw [ih]
    by_cases hm : mapHasKey m ev.1 = true
    · rw [show insert_first topic_url m ev = m by simp [insert_first, hm]]
      cases hk : (ev.1 == k) with
      | false => simp [List.find?_cons, hk]
      | true =>
        have hkk : ev.1 = k := by rwa [beq_iff_eq] at hk
        have hsome : (mapLookup m k).isSome = true := by
          rw [← hkk]; exact hm
        obtain ⟨v, hv⟩ := Option.isSome_iff_exists.mp hsome
        simp [List.find?_cons, hk, hv]
    · rw [show insert_first topic_url m ev = m ++ [(ev.1, mkEntry topic_url ev.2 ev.1)] by
        simp [insert_first, hm]]
      rw [mapLookup_append_single, Option.or_assoc]
      cases hk : (ev.1 == k) with
      | false => simp [List.find?_cons, hk]
      | true => simp [List.find?_cons, hk]

theorem mem_events_not_denied {anchors : String → List String}
    {parse : String → Option ParsedUrl} {denylist : List String} {posts : List Post}
    {ev : String × Post} (h : ev ∈ events anchors parse denylist posts) :
    ev.1 ∉ denylist := by
  unfold events at h
  rw [List.mem_flatMap] at h
  obtain ⟨p, _, hev⟩ := h
  unfold post_events at hev
  by_cases hc : strHas p.cooked "youtu" = true
  · rw [if_neg (by simp [hc])] at hev
    rw [List.mem_map] at hev
    obtain ⟨v, hv, rfl⟩ := hev
    unfold post_hits at hv
    rw [List.mem_filter] at hv
    simpa using hv.2
  · rw [if_pos (by simp [hc])] at hev
    cases hev

/-- C4: an id on the denylist never appears as a key of the map returned by
`process_posts`, whatever the posts, topic URL and collaborators. -/
theorem process_posts_denylist_excluded (anchors : String → List String)
    (parse : String → Option ParsedUrl) (posts : List Post) (topic_url : String)
    (denylist : List String) (vid : String) (hd : vid ∈ denylist) :
    mapLookup (process_posts anchors parse posts topic_url denylist) vid = none := by
  rw [process_posts_eq_events, lookup_foldl_insert]
  have hf : (events anchors parse denylist posts).find? (fun ev => ev.1 == vid) = none := by
    rw [List.find?_eq_none]
    intro ev hev hbeq
    have hne := mem_events_not_denied hev
    rw [beq_iff_eq] at hbeq
    rw [hbeq] at hne
    exact hne hd
  simp [mapLookup, hf]

/-- Witness for C4: the denied id of the repository's unit test is absent. -/
theorem process_posts_denylist_excluded_witness :
    mapLookup (process_posts demoAnchors demoParse demoPosts "https://forum"
      ["AAAAAAAAAAA"]) "AAAAAAAAAAA" = none :=
  process_posts_denylist_excluded demoAnchors demoParse demoPosts "https://forum"
    ["AAAAAAAAAAA"] "AAAAAAAAAAA" (by decide)

theorem href_none_of_no_domain {parse : String → Option ParsedUrl} {href : String}
    (h1 : ¬ "youtu.be".data <:+: href.data) (h2 : ¬ "youtube.com".data <:+: href.data) :
    href_video_id parse href = none := by
  unfold href_video_id
  rw [if_pos]
  rintro (hb | hb) <;> rw [strHas, decide_eq_true_eq] at hb
  · exact h1 hb
  · exact h2 hb

/-- C3: an href containing neither literal domain substring is rejected by
the cheap filter, before and independently of URL parsing. -/
theorem href_substring_filter (parse : String → Option ParsedUrl) (href : String)
    (h1 : ¬ "youtu.be".data <:+: href.data) (h2 : ¬ "youtube.com".data <:+: href.data) :
    href_video_id parse href = none :=
  href_none_of_no_domain h1 h2

theorem post_hits_nil_of_no_youtu {anchors : String → List String}
    {parse : String → Option ParsedUrl} {denylist : List String} {p : Post}
    (hp : ∀ href ∈ anchors p.cooked, href.data <:+: p.cooked.data)
    (hc : ¬ strHas p.cooked "youtu" = true) :
    post_hits anchors parse denylist p = [] := by
  unfold post_hits
  rw [show (anchors p.cooked).filterMap (href_video_id parse) = [] from ?_]
  · rfl
  · rw [List.filterMap_eq_nil_iff]
    intro href hhref
    have hsub := hp href hhref
    apply href_none_of_no_domain
    · intro hb
      refine hc ?_
      rw [strHas, decide_eq_true_eq]
      exact ((by decide : ("youtu".data : List Char) <:+: "youtu.be".data).trans hb).trans hsub
    · intro hb
      refine hc ?_
      rw [strHas, decide_eq_true_eq]
      exact ((by decide :
        ("youtu".data : List Char) <:+: "youtube.com".data).trans hb).trans hsub

theorem events_eq_of_sub {anchors : String → List String} {parse : String → Option ParsedUrl}
    {denylist : List String} {posts : List Post}
    (H : ∀ p ∈ posts, ∀ href ∈ anchors p.cooked, href.data <:+: p.cooked.data) :
    events anchors parse denylist posts
      = posts.flatMap (fun p => (post_hits anchors parse denylist p).map (fun v => (v, p))) := by
  induction posts with
  | nil => rfl
  | cons p t ih =>
    unfold events at ih ⊢
    rw [List.flatMap_cons, List.flatMap_cons,
      ih (fun q hq => H q (List.mem_cons_of_mem p hq))]
    have hevp : post_events anchors parse denylist p
        = (post_hits anchors parse denylist p).map (fun v => (v, p)) := by
      unfold post_events
      by_cases hc : strHas p.cooked "youtu" = true
      · rw [if_neg (by simp [hc])]
      · rw [if_pos (by simp [hc]),
          post_hits_nil_of_no_youtu (H p (List.mem_cons_self p t)) hc]
        rfl
    rw [hevp]

theorem nodup_foldl_insert (topic_url : String) (evs : List (String × Post)) (m : VideoMap)
    (hm : (mapKeys m).Nodup) : (mapKeys (evs.foldl (insert_first topic_url) m)).Nodup := by
  induction evs generalizing m with
  | nil => exact hm
  | cons ev t ih =>
    rw [List.foldl_cons]
    apply ih
    unfold insert_first
    by_cases hk : mapHasKey m ev.1 = true
    · rw [if_pos hk]; exact hm
    · rw [if_neg hk]
      have hkeys : mapKeys (m ++ [(ev.1, mkEntry topic_url ev.2 ev.1)])
          = mapKeys m ++ [ev.1] := by
        unfold mapKeys
        rw [List.map_append]
        rfl
      rw [hkeys, List.nodup_append]
      refine ⟨hm, List.nodup_singleton _, ?_⟩
      intro x hx hx'
      rw [List.mem_singleton] at hx'
      rw [hx'] at hx
      exact hk ((mapHasKey_iff m ev.1).mpr hx)

theorem find?_beq_self (l : List String) (x : String) :
    l.find? (fun v => v == x) = if x ∈ l then some x else none := by
  induction l with
  | nil => simp
  | cons a t ih =>
    cases ha : (a == x) with
    | true =>
      have hax : a = x := by rwa [beq_iff_eq] at ha
      subst hax
      rw [List.find?_cons_of_pos _ (by simp), if_pos (List.mem_cons_self a t)]
    | false =>
      have hax : ¬ a = x := by simpa using ha
      have hxa : ¬ x = a := fun h => hax h.symm
      rw [List.find?_cons_of_neg _ (by simpa using ha), ih]
      by_cases hx : x ∈ t
      · rw [if_pos hx, if_pos (List.mem_cons_of_mem a hx)]
      · rw [if_neg hx, if_neg (by rw [List.mem_cons]; rintro (h | h) <;> [exact hxa h; exact hx h])]

theorem flat_find_eq (anchors : String → List String) (parse : String → Option ParsedUrl)
    (denylist : List String) (posts : List Post) (vid : String) :
    (posts.flatMap (fun p => (post_hits anchors parse denylist p).map (fun v => (v, p)))).find?
        (fun ev => ev.1 == vid)
      = (posts.find? (fun p => decide (vid ∈ post_hits anchors parse denylist p))).map
          (fun p => (vid, p)) := by
  induction posts with
  | nil => rfl
  | cons p t ih =>
    rw [List.flatMap_cons, List.find?_append, List.find?_map]
    rw [show ((fun ev : String × Post => ev.1 == vid) ∘ fun v => (v, p))
        = fun v => v == vid from rfl]
    rw [find?_beq_self]
    by_cases hv : vid ∈ post_hits anchors parse denylist p
    · rw [if_pos hv, List.find?_cons_of_pos _ (by simpa using hv)]
      rfl
    · rw [if_neg hv, List.find?_cons_of_neg _ (by simpa using hv), ih]
      rfl

/-- C2: given that every href yielded by the HTML collaborator is a substring
of its post's cooked body (true of anchors extracted from the body), the map
`process_posts` returns has pairwise-distinct keys, its size is the number of
distinct valid non-denied ids across all posts' anchor hrefs, and the entry
for each id is built (via `mkEntry`, i.e. `{topicUrl}/{post_number}` and the
post's username) from the first post in input order whose hrefs yield that
id; later sightings change nothing. -/
theorem process_posts_first_seen (anchors : String → List String)
    (parse : String → Option ParsedUrl) (posts : List Post) (topic_url : String)
    (denylist : List String)
    (H : ∀ p ∈ posts, ∀ href ∈ anchors p.cooked, href.data <:+: p.cooked.data) :
    (mapKeys (process_posts anchors parse posts topic_url denylist)).Nodup
  ∧ (process_posts anchors parse posts topic_url denylist).length
      = (posts.flatMap (post_hits anchors parse denylist)).dedup.length
  ∧ ∀ vid, mapLookup (process_posts anchors parse posts topic_url denylist) vid
      = (posts.find? (fun p => decide (vid ∈ post_hits anchors parse denylist p))).map
          (fun p => mkEntry topic_url p vid) := by
  have hlookup : ∀ vid, mapLookup (process_posts anchors parse posts topic_url denylist) vid
      = (posts.find? (fun p => decide (vid ∈ post_hits anchors parse denylist p))).map
          (fun p => mkEntry topic_url p vid) := by
    intro vid
    rw [process_posts_eq_events, lookup_foldl_insert,
      show mapLookup [] vid = none from rfl, Option.none_or,
      events_eq_of_sub H, flat_find_eq, Option.map_map]
    rfl
  have hnodup : (mapKeys (process_posts anchors parse posts topic_url denylist)).Nodup := by
    rw [process_posts_eq_events]
    exact nodup_foldl_insert topic_url _ [] List.nodup_nil
  have hmem : ∀ k, k ∈ mapKeys (process_posts anchors parse posts topic_url denylist)
      ↔ k ∈ posts.flatMap (post_hits anchors parse denylist) := by
    intro k
    rw [← mapHasKey_iff]
    unfold mapHasKey
    rw [hlookup k]
    cases hf : posts.find? (fun p => decide (k ∈ post_hits anchors parse denylist p)) with
    | none =>
      rw [List.find?_eq_none] at hf
      simp only [Option.map_none', Option.isSome_none, Bool.false_eq_true, false_iff]
      rw [List.mem_flatMap]
      rintro ⟨p, hp, hk⟩
      exact hf p hp (by simpa using hk)
    | some p =>
      have hp := List.mem_of_find?_eq_some hf
      have hpk := List.find?_some hf
      simp only [Option.map_some', Option.isSome_some, true_iff]
      rw [List.mem_flatMap]
      exact ⟨p, hp, by simpa using hpk⟩
  refine ⟨hnodup, ?_, hlookup⟩
  have hlen : (mapKeys (process_posts anchors parse posts topic_url denylist)).length
      = (process_posts anchors parse posts topic_url denylist).length :=
    List.length_map _ _
  rw [← hlen, ← List.toFinset_card_of_nodup hnodup,
    ← List.toFinset_card_of_nodup (List.nodup_dedup _)]
  congr 1
  rw [List.toFinset.ext_iff]
  intro x
  rw [List.mem_dedup]
  exact hmem x

/-- Witness for C2, reproducing the repository's dedup/denylist unit test:
of the two posts linking BBBBBBBBBBB the first (post 2, by bob) owns the
entry. -/
theorem process_posts_first_seen_witness :
    mapLookup (process_posts demoAnchors demoParse demoPosts "https://forum"
        ["AAAAAAAAAAA"]) "BBBBBBBBBBB"
      = some ⟨"BBBBBBBBBBB", "https://forum/2", "bob", none, none⟩ := by
  have h := (process_posts_first_seen demoAnchors demoParse demoPosts "https://forum"
    ["AAAAAAAAAAA"] (by decide)).2.2 "BBBBBBBBBBB"
  rw [h]
  decide

/-- Witness for C3: the filter wins even against a parse collaborator that
would hand back a perfectly extractable YouTube URL. -/
theorem href_substring_filter_witness :
    href_video_id (fun _ => some ⟨some "youtu.be", "/AAAAAAAAAAA", []⟩)
      "https://example.org/video" = none :=
  href_substring_filter (fun _ => some ⟨some "youtu.be", "/AAAAAAAAAAA", []⟩)
    "https://example.org/video" (by decide) (by decide)

/-- C5: with a cache file present for a (non-empty) handle, a stale entry
(age strictly above the 24h TTL) is never returned - the lookup misses and
the remote path runs, the result being whatever remote resolution dictates;
a fresh entry (age at most the TTL) is returned as its stored tip with no
network involvement. -/
theorem cache_ttl_behavior (fs : CacheState) (now : Nat)
    (remote : Except Unit (Option TipInfo)) (username : String) (entry : CachedTipEntry)
    (hne : ¬ username = "") (hfs : fs (cache_path username) = some entry) :
    (CACHE_TTL_SECS < now - entry.cached_at →
      load_cached_tip fs now username = none
      ∧ (fetch_tip_info_with_cache fs now remote username).network = true
      ∧ (fetch_tip_info_with_cache fs now remote username).result = remote_result remote)
  ∧ (now - entry.cached_at ≤ CACHE_TTL_SECS →
      (fetch_tip_info_with_cache fs now remote username).network = false
      ∧ (fetch_tip_info_with_cache fs now remote username).result
          = entry.tip_unified_address.map (fun addr => ⟨addr, entry.tip_has_transparent⟩)) := by
  constructor
  · intro hstale
    have hload : load_cached_tip fs now username = none := by
      unfold load_cached_tip
      rw [hfs]
      show (if cache_entry_fresh now entry = true then some entry else none) = none
      rw [if_neg]
      rw [cache_entry_fresh, decide_eq_true_eq]
      omega
    have hbase : fetch_tip_info_with_cache fs now remote username
        = match remote with
          | .ok (some tip) => ⟨some tip, some ⟨now, some tip.address, tip.has_transparent⟩, true⟩
          | .ok none => ⟨none, some ⟨now, none, false⟩, true⟩
          | .error _ => ⟨none, none, true⟩ := by
      unfold fetch_tip_info_with_cache
      rw [if_neg hne, hload]
    refine ⟨hload, ?_, ?_⟩
    · rw [hbase]
      rcases remote with e | r
      · rfl
      · rcases r with _ | tip <;> rfl
    · rw [hbase]
      rcases remote with e | r
      · rfl
      · rcases r with _ | tip <;> rfl
  · intro hfresh
    have hload : load_cached_tip fs now username = some entry := by
      unfold load_cached_tip
      rw [hfs]
      show (if cache_entry_fresh now entry = true then some entry else none) = some entry
      rw [if_pos]
      rw [cache_entry_fresh, decide_eq_true_eq]
      exact hfresh
    have hbase : fetch_tip_info_with_cache fs now remote username
        = ⟨entry.tip_unified_address.map (fun addr => ⟨addr, entry.tip_has_transparent⟩),
            none, false⟩ := by
      unfold fetch_tip_info_with_cache
      rw [if_neg hne, hload]
    rw [hbase]
    exact ⟨rfl, rfl⟩

/-- Witness for C5: a fresh demo entry is served from the cache with no
network use. -/
theorem cache_ttl_behavior_witness :
    (fetch_tip_info_with_cache demoCache 1000 (.ok none) "alice").network = false
    ∧ (fetch_tip_info_with_cache demoCache 1000 (.ok none) "alice").result
        = demoEntry.tip_unified_address.map
            (fun addr => ⟨addr, demoEntry.tip_has_transparent⟩) :=
  (cache_ttl_behavior demoCache 1000 (.ok none) "alice" demoEntry (by decide)
    (by decide)).2 (by decide)

/-- C7: for a non-empty handle with no fresh cache entry, a cache entry
stamped with the current time is written iff the remote resolution
completes: a validated tip is stored as such, a confirmed negative stores
the no-tip entry (refreshing the TTL), and a transport error writes nothing
- the result is downgraded to no-tip for the run. -/
theorem cache_write_iff_complete (fs : CacheState) (now : Nat)
    (remote : Except Unit (Option TipInfo)) (username : String)
    (hne : ¬ username = "") (hmiss : load_cached_tip fs now username = none) :
    ((fetch_tip_info_with_cache fs now remote username).written.isSome = true
        ↔ ∃ r, remote = .ok r)
  ∧ (∀ w, (fetch_tip_info_with_cache fs now remote username).written = some w →
      w.cached_at = now)
  ∧ (∀ tip, remote = .ok (some tip) →
      (fetch_tip_info_with_cache fs now remote username).written
          = some ⟨now, some tip.address, tip.has_transparent⟩
      ∧ (fetch_tip_info_with_cache fs now remote username).result = some tip)
  ∧ (remote = .ok none →
      (fetch_tip_info_with_cache fs now remote username).written = some ⟨now, none, false⟩
      ∧ (fetch_tip_info_with_cache fs now remote username).result = none)
  ∧ (∀ e, remote = .error e →
      (fetch_tip_info_with_cache fs now remote username).written = none
      ∧ (fetch_tip_info_with_cache fs now remote username).result = none) := by
  have hbase : fetch_tip_info_with_cache fs now remote username
      = match remote with
        | .ok (some tip) => ⟨some tip, some ⟨now, some tip.address, tip.has_transparent⟩, true⟩
        | .ok none => ⟨none, some ⟨now, none, false⟩, true⟩
        | .error _ => ⟨none, none, true⟩ := by
    unfold fetch_tip_info_with_cache
    rw [if_neg hne, hmiss]
  rcases remote with e | r
  · rw [hbase]
    refine ⟨?_, ?_, ?_, ?_, ?_⟩
    · constructor
      · intro h; cases h
      · rintro ⟨r, hr⟩; cases hr
    · intro w hw; cases hw
    · intro tip htip; cases htip
    · intro h; cases h
    · intro e' _; exact ⟨rfl, rfl⟩
  · rcases r with _ | tip
    · rw [hbase]
      refine ⟨?_, ?_, ?_, ?_, ?_⟩
      · exact ⟨fun _ => ⟨none, rfl⟩, fun _ => rfl⟩
      · intro w hw; cases hw; rfl
      · intro tip htip; cases htip
      · intro _; exact ⟨rfl, rfl⟩
      · intro e he; cases he
    · rw [hbase]
      refine ⟨?_, ?_, ?_, ?_, ?_⟩
      · exact ⟨fun _ => ⟨some tip, rfl⟩, fun _ => rfl⟩
      · intro w hw; cases hw; rfl
      · intro tip' htip; cases htip; exact ⟨rfl, rfl⟩
      · intro h; cases h
      · intro e he; cases he

/-- Witness for C7: on a cache miss, a confirmed negative writes the no-tip
entry stamped with the current time. -/
theorem cache_write_iff_complete_witness :
    (fetch_tip_info_with_cache (fun _ => none) 77 (.ok none) "alice").written
        = some ⟨77, none, false⟩
    ∧ (fetch_tip_info_with_cache (fun _ => none) 77 (.ok none) "alice").result = none :=
  (cache_write_iff_complete (fun _ => none) 77 (.ok none) "alice" (by decide)
    rfl).2.2.2.1 rfl

/-- C10: the cache-key sanitisation is not injective: the distinct handles
"a.b" and "a-b" map to the same cache file, so a fresh entry stored under
one handle is served by the cache lookup for the other. -/
theorem cache_path_collision :
    cache_path "a.b" = cache_path "a-b"
  ∧ "a.b" ≠ "a-b"
  ∧ ∀ (fs : CacheState) (now : Nat) (entry : CachedTipEntry),
      fs (cache_path "a.b") = some entry → cache_entry_fresh now entry = true →
      load_cached_tip fs now "a-b" = some entry := by
  refine ⟨by decide, by decide, ?_⟩
  intro fs now entry hfs hfresh
  unfold load_cached_tip
  rw [show cache_path "a-b" = cache_path "a.b" from by decide, hfs]
  show (if cache_entry_fresh now entry = true then some entry else none) = some entry
  rw [if_pos hfresh]

/-- Witness for C10: an entry stored at the path of "a.b" is returned by the
lookup for "a-b". -/
theorem cache_path_collision_witness :
    load_cached_tip
        (fun p => if p = cache_path "a.b" then some ⟨0, some "u1x", false⟩ else none)
        0 "a-b"
      = some ⟨0, some "u1x", false⟩ :=
  cache_path_collision.2.2
    (fun p => if p = cache_path "a.b" then some ⟨0, some "u1x", false⟩ else none)
    0 ⟨0, some "u1x", false⟩ (by decide) (by decide)

theorem retry_loop_spec (responses : Nat → AttemptOutcome) :
    ∀ k attempt, RETRY_ATTEMPTS - attempt = k → attempt < RETRY_ATTEMPTS →
      (attempt ≤ (retry_loop responses attempt).last
        ∧ (retry_loop responses attempt).last < RETRY_ATTEMPTS)
      ∧ (∀ i, attempt ≤ i → i < (retry_loop responses attempt).last →
          attempt_retryable (responses i) = true)
      ∧ (retry_loop responses attempt).result
          = attempt_result (responses (retry_loop responses attempt).last)
      ∧ ((retry_loop responses attempt).last + 1 < RETRY_ATTEMPTS →
          attempt_retryable (responses (retry_loop responses attempt).last) = false)
      ∧ (retry_loop responses attempt).delays
          = (List.range' attempt ((retry_loop responses attempt).last - attempt)).map
              retry_delay := by
  intro k
  induction k with
  | zero => intro attempt h0 hlt; omega
  | succ k ih =>
    intro attempt hk hlt
    cases hr : responses attempt with
    | ok status =>
      by_cases hc : should_retry_status status = true ∧ attempt + 1 < RETRY_ATTEMPTS
      · have hstep : retry_loop responses attempt
            = ⟨(retry_loop responses (attempt + 1)).result,
               (retry_loop responses (attempt + 1)).last,
               retry_delay attempt :: (retry_loop responses (attempt + 1)).delays⟩ := by
          conv_lhs => rw [retry_loop.eq_def, hr]
          exact dif_pos hc
        obtain ⟨⟨hlb, hub⟩, hretry, hres, hstop, hdel⟩ := ih (attempt + 1) (by omega) hc.2
        rw [hstep]
        dsimp only
        refine ⟨⟨by omega, hub⟩, ?_, hres, hstop, ?_⟩
        · intro i hi1 hi2
          rcases Nat.eq_or_lt_of_le hi1 with heq | hlt2
          · rw [← heq, hr]
            exact hc.1
          · exact hretry i (by omega) hi2
        · show retry_delay attempt :: (retry_loop responses (attempt + 1)).delays
            = (List.range' attempt ((retry_loop responses (attempt + 1)).last - attempt)).map
                retry_delay
          rw [hdel, show (retry_loop responses (attempt + 1)).last - attempt
              = ((retry_loop responses (attempt + 1)).last - (attempt + 1)) + 1 by omega,
            List.range'_succ]
          rfl
      · have hstep : retry_loop responses attempt = ⟨.ok status, attempt, []⟩ := by
          conv_lhs => rw [retry_loop.eq_def, hr]
          exact dif_neg hc
        rw [hstep]
        dsimp only
        refine ⟨⟨Nat.le_refl _, hlt⟩, ?_, ?_, ?_, ?_⟩
        · intro i h1 h2
          omega
        · rw [hr]
          rfl
        · intro h2
          have hns : ¬ should_retry_status status = true := fun hs => hc ⟨hs, h2⟩
          rw [hr]
          show should_retry_status status = false
          simpa using hns
        · simp
    | error e =>
      by_cases hc : RETRY_ATTEMPTS ≤ attempt + 1
      · have hstep : retry_loop responses attempt = ⟨.error (), attempt, []⟩ := by
          conv_lhs => rw [retry_loop.eq_def, hr]
          exact dif_pos hc
        rw [hstep]
        dsimp only
        refine ⟨⟨Nat.le_refl _, hlt⟩, ?_, ?_, ?_, ?_⟩
        · intro i h1 h2
          omega
        · rw [hr]
          rfl
        · intro h2
          omega
        · simp
      · have hstep : retry_loop responses attempt
            = ⟨(retry_loop responses (attempt + 1)).result,
               (retry_loop responses (attempt + 1)).last,
               retry_delay attempt :: (retry_loop responses (attempt + 1)).delays⟩ := by
          conv_lhs => rw [retry_loop.eq_def, hr]
          exact dif_neg hc
        obtain ⟨⟨hlb, hub⟩, hretry, hres, hstop, hdel⟩ :=
          ih (attempt + 1) (by omega) (by omega)
        rw [hstep]
        dsimp only
        refine ⟨⟨by omega, hub⟩, ?_, hres, hstop, ?_⟩
        · intro i hi1 hi2
          rcases Nat.eq_or_lt_of_le hi1 with heq | hlt2
          · rw [← heq, hr]
            rfl
          · exact hretry i (by omega) hi2
        · show retry_delay attempt :: (retry_loop responses (attempt + 1)).delays
            = (List.range' attempt ((retry_loop responses (attempt + 1)).last - attempt)).map
                retry_delay
          rw [hdel, show (retry_loop responses (attempt + 1)).last - attempt
              = ((retry_loop responses (attempt + 1)).last - (attempt + 1)) + 1 by omega,
            List.range'_succ]
          rfl

/-- C6: `get_with_retries` makes `last + 1 ≤ 3` requests; every non-final
attempt's outcome was retryable (a 5xx or 429 status, or a request error) -
so any other status, or success, returns immediately; the returned value is
the final attempt's outcome (success or error), also when the cap is
exhausted; the sleeps between attempts are `retry_delay 0, retry_delay 1,
...`, doubling from the 500ms base and capped at the attempt-5 value. -/
theorem get_with_retries_policy (responses : Nat → AttemptOutcome) :
    ((get_with_retries responses).last < RETRY_ATTEMPTS)
  ∧ (∀ i, i < (get_with_retries responses).last → attempt_retryable (responses i) = true)
  ∧ (get_with_retries responses).result
      = attempt_result (responses (get_with_retries responses).last)
  ∧ ((get_with_retries responses).last + 1 < RETRY_ATTEMPTS →
      attempt_retryable (responses (get_with_retries responses).last) = false)
  ∧ (get_with_retries responses).delays
      = (List.range (get_with_retries responses).last).map retry_delay
  ∧ retry_delay 0 = RETRY_BASE_DELAY_MS
  ∧ (∀ i, i < 5 → retry_delay (i + 1) = 2 * retry_delay i)
  ∧ (∀ i, retry_delay i ≤ RETRY_BASE_DELAY_MS * 2 ^ 5) := by
  obtain ⟨⟨_, hub⟩, hretry, hres, hstop, hdel⟩ :=
    retry_loop_spec responses RETRY_ATTEMPTS 0 rfl (by decide)
  refine ⟨hub, ?_, hres, hstop, ?_, by decide, ?_, ?_⟩
  · intro i hi
    exact hretry i (Nat.zero_le i) hi
  · rw [List.range_eq_range']
    simpa using hdel
  · intro i hi
    unfold retry_delay
    rw [Nat.min_eq_left (by omega), Nat.min_eq_left (by omega), Nat.pow_succ]
    ring
  · intro i
    unfold retry_delay
    exact Nat.mul_le_mul_left _ (Nat.pow_le_pow_right (by omega) (Nat.min_le_right i 5))

/-- Witness for C6: the delays double, and on the demo transcript
(error, 503, 200) the loop's return value is the last attempt's outcome. -/
theorem get_with_retries_policy_witness :
    retry_delay 1 = 2 * retry_delay 0
    ∧ (get_with_retries demoResponses).result
        = attempt_result (demoResponses (get_with_retries demoResponses).last) :=
  ⟨(get_with_retries_policy demoResponses).2.2.2.2.2.2.1 0 (by decide),
   (get_with_retries_policy demoResponses).2.2.1⟩

theorem load_cached_tip_some {fs : CacheState} {now : Nat} {username : String}
    {entry : CachedTipEntry} (h : load_cached_tip fs now username = some entry) :
    fs (cache_path username) = some entry := by
  unfold load_cached_tip at h
  split at h
  · cases h
  · rename_i e heq
    split at h
    · cases h
      exact heq
    · cases h

theorem validate_has_transparent_false {decode : UADecoder} {c : String} {tip : TipInfo}
    (hv : validate_unified_address decode c = some tip) : tip.has_transparent = false := by
  unfold validate_unified_address at hv
  split at hv
  · split at hv
    · exact absurd hv (by simp)
    · split at hv
      · exact absurd hv (by simp)
      · rename_i hnt
        cases hv
        simpa using hnt
  · exact absurd hv (by simp)

theorem tip_from_json_no_transparent {decode : UADecoder} {resp : Except Unit JsonResp}
    {tip : TipInfo} (h : fetch_tip_from_json decode resp = .ok (some tip)) :
    tip.has_transparent = false := by
  unfold fetch_tip_from_json at h
  repeat' split at h
  all_goals cases h
  all_goals rename_i hval
  all_goals exact validate_has_transparent_false hval

theorem tip_from_html_no_transparent {decode : UADecoder} {resp : Except Unit HtmlResp}
    {tip : TipInfo} (h : fetch_tip_from_html decode resp = .ok (some tip)) :
    tip.has_transparent = false := by
  unfold fetch_tip_from_html at h
  repeat' split at h
  all_goals cases h
  all_goals rename_i hval
  all_goals exact validate_has_transparent_false hval

theorem remote_no_transparent {decode : UADecoder} {jresp : Except Unit JsonResp}
    {hresp : Except Unit HtmlResp} {tip : TipInfo}
    (h : (fetch_tip_info_remote decode jresp hresp).result = .ok (some tip)) :
    tip.has_transparent = false := by
  unfold fetch_tip_info_remote at h
  split at h
  · rename_i tip' hjson
    cases h
    exact tip_from_json_no_transparent hjson
  · exact tip_from_html_no_transparent h
  · exact absurd h (by simp)

theorem fold_insert_tip_unset (topic_url : String) (evs : List (String × Post)) (m : VideoMap)
    (hm : ∀ kv ∈ m, kv.2.tip_has_transparent = none) :
    ∀ kv ∈ evs.foldl (insert_first topic_url) m, kv.2.tip_has_transparent = none := by
  induction evs generalizing m with
  | nil => exact hm
  | cons ev t ih =>
    rw [List.foldl_cons]
    apply ih
    unfold insert_first
    by_cases hk : mapHasKey m ev.1 = true
    · rw [if_pos hk]
      exact hm
    · rw [if_neg hk]
      intro kv hkv
      rw [List.mem_append] at hkv
      rcases hkv with h | h
      · exact hm kv h
      · rw [List.mem_singleton] at h
        rw [h]
        rfl

/-- C9: `validate_unified_address` never returns a transparent-flagged tip
(such an address is rejected outright); hence remote resolution never
produces one; hence - the cache holding only entries the program itself
wrote, i.e. transparent-free ones - `fetch_tip_info_with_cache` never
returns one; and since `process_posts` creates all entries with the tip
fields unset, the merge pass of `run` leaves `tip_has_transparent` either
unset or `some false` on every final entry, never `some true`. -/
theorem no_transparent_tip :
    (∀ (decode : UADecoder) (c : String) (tip : TipInfo),
      validate_unified_address decode c = some tip → tip.has_transparent = false)
  ∧ (∀ (decode : UADecoder) (jresp : Except Unit JsonResp) (hresp : Except Unit HtmlResp)
      (tip : TipInfo),
      (fetch_tip_info_remote decode jresp hresp).result = .ok (some tip) →
      tip.has_transparent = false)
  ∧ (∀ (fs : CacheState) (now : Nat) (decode : UADecoder) (jresp : Except Unit JsonResp)
      (hresp : Except Unit HtmlResp) (username : String) (tip : TipInfo),
      (∀ p e, fs p = some e → e.tip_has_transparent = false) →
      (fetch_tip_info_with_cache fs now (fetch_tip_info_remote decode jresp hresp).result
          username).result = some tip →
      tip.has_transparent = false)
  ∧ (∀ (anchors : String → List String) (parse : String → Option ParsedUrl)
      (posts : List Post) (topic_url : String) (denylist : List String),
      ∀ kv ∈ process_posts anchors parse posts topic_url denylist,
        kv.2.tip_has_transparent = none)
  ∧ (∀ (m : VideoMap) (tip_map : String → Option TipInfo),
      (∀ u tip, tip_map u = some tip → tip.has_transparent = false) →
      (∀ kv ∈ m, kv.2.tip_has_transparent = none) →
      ∀ kv ∈ merge_tips m tip_map,
        kv.2.tip_has_transparent = none ∨ kv.2.tip_has_transparent = some false) := by
  refine ⟨?_, ?_, ?_, ?_, ?_⟩
  · intro decode c tip hv
    exact validate_has_transparent_false hv
  · intro decode jresp hresp tip h
    exact remote_no_transparent h
  · intro fs now decode jresp hresp username tip hcache hres
    unfold fetch_tip_info_with_cache at hres
    by_cases hu : username = ""
    · rw [if_pos hu] at hres
      cases hres
    · rw [if_neg hu] at hres
      cases hl : load_cached_tip fs now username with
      | some entry =>
        rw [hl] at hres
        dsimp only at hres
        have hfalse : entry.tip_has_transparent = false :=
          hcache _ entry (load_cached_tip_some hl)
        cases ha : entry.tip_unified_address with
        | none =>
          rw [ha] at hres
          cases hres
        | some addr =>
          rw [ha] at hres
          cases hres
          exact hfalse
      | none =>
        rw [hl] at hres
        dsimp only at hres
        cases hr : (fetch_tip_info_remote decode jresp hresp).result with
        | ok r =>
          cases r with
          | some t2 =>
            rw [hr] at hres
            cases hres
            exact remote_no_transparent hr
          | none =>
            rw [hr] at hres
            cases hres
        | error e =>
          rw [hr] at hres
          cases hres
  · intro anchors parse posts topic_url denylist kv hkv
    rw [process_posts_eq_events] at hkv
    exact fold_insert_tip_unset topic_url _ [] (by intro kv h; cases h) kv hkv
  · intro m tip_map htm hm kv hkv
    unfold merge_tips at hkv
    rw [List.mem_map] at hkv
    obtain ⟨kv0, hkv0, hmap⟩ := hkv
    cases ht : tip_map kv0.2.username.trim with
    | none =>
      rw [ht] at hmap
      rw [← hmap]
      exact Or.inl (hm kv0 hkv0)
    | some tip =>
      rw [ht] at hmap
      dsimp only at hmap
      rw [← hmap]
      right
      dsimp only
      rw [htm _ tip ht]

/-- Witness for C9: a mainnet shielded-only decode yields a tip flagged
transparent-free. -/
theorem no_transparent_tip_witness :
    (⟨"u1demo", false⟩ : TipInfo).has_transparent = false :=
  no_transparent_tip.1 (fun _ => .ok (Network.main, [Receiver.sapling])) "u1demo"
    ⟨"u1demo", false⟩ (by decide)

/-- Counterexample to C8: the structured payload `cexBody` does contain a
candidate address (`u1aaaaaaaaaa`), it fails validation (decode error), and
the rendered-page fallback IS nevertheless fetched - contradicting "if the
structured payload contained a candidate ... no rendered-page fetch
occurs". -/
theorem json_candidate_still_fetches_html :
    find_address_in_json cexBody = some "u1aaaaaaaaaa"
    ∧ (fetch_tip_info_remote cexDecode cexJson cexHtml).html_fetched = true := by
  have hex : extract_unified_address "tip me at u1aaaaaaaaaa please" = some "u1aaaaaaaaaa" := by
    decide
  have hfind : find_address_in_json cexBody = some "u1aaaaaaaaaa" := by
    simp [cexBody, find_address_in_json, find_address_in_obj, hex]
  refine ⟨hfind, ?_⟩
  have hjson : fetch_tip_from_json cexDecode cexJson = .ok none := by
    simp [fetch_tip_from_json, cexJson, NOT_FOUND, is_success_status, hfind, cexDecode,
      validate_unified_address]
  unfold fetch_tip_info_remote
  rw [hjson]

/-- C8 amended: the rendered-page fallback runs exactly when the structured
path returns a confirmed negative (`Ok(None)`: a 404, a payload with no
candidate, or a candidate failing validation); a validated candidate or a
propagated transport error prevents it. -/
theorem html_fallback_iff_json_none (decode : UADecoder) (jresp : Except Unit JsonResp)
    (hresp : Except Unit HtmlResp) :
    (fetch_tip_info_remote decode jresp hresp).html_fetched = true
      ↔ fetch_tip_from_json decode jresp = .ok none := by
  unfold fetch_tip_info_remote
  cases hj : fetch_tip_from_json decode jresp with
  | ok r =>
    cases r with
    | some tip => simp
    | none => simp
  | error e => simp

end ZcashRadio
